import Mathlib

/-! RBRPC-App: the code registry, points ledger and session controller of `script.js`

A shallow embedding of the client script.

* The platform is modelled explicitly: JavaScript `trim`, `parseInt`, number-to-text
  and `toISOString`; the document store as three keyed collections with point read,
  `set`, `update`, `delete`, batched delete and range filters on a string field (string
  order is code-point order).  `toUpperCase` is a parameter of the two handlers that
  call it.
* The state `App` holds the two globals of the script (`currentUser`, `isAdmin`), the
  page elements the script writes and later depends on, and the store.
* Every handler is a function on `App`.  The clock reading `new Date()` is the argument
  `now`; the key generated by `add` is the argument `newId`; each awaited store call
  takes a flag saying whether the store answered it (`false`: the promise rejects and
  the handler takes its `catch` path).  Fire-and-forget reloads at the end of a handler
  are run in place.
* Not modelled, as they neither read nor write the state above: the theme functions,
  `showSuccess`, `updateUI`, the statistics counters of `loadCodes`, the clipboard, and
  `watchAd`.
-/

namespace RBRPC

/-! ## Platform: JavaScript strings and numbers -/

/-- Result of `parseInt`: `NaN` or an integer-valued number (exact below 2^53). -/
inductive JsNumber where
  | nan : JsNumber
  | int (n : Int) : JsNumber
  deriving DecidableEq, Repr

/-- WhiteSpace and LineTerminator code points of ECMAScript (what `trim` and
`parseInt` strip). -/
def isWhiteSpace (c : Char) : Bool :=
  let n := c.toNat
  n == 0x09 || n == 0x0A || n == 0x0B || n == 0x0C || n == 0x0D || n == 0x20 ||
  n == 0xA0 || n == 0x1680 || (0x2000 ≤ n && n ≤ 0x200A) || n == 0x2028 ||
  n == 0x2029 || n == 0x202F || n == 0x205F || n == 0x3000 || n == 0xFEFF

/-- `String.prototype.trim`. -/
def trim (s : String) : String :=
  String.mk ((s.data.dropWhile isWhiteSpace).reverse.dropWhile isWhiteSpace).reverse

/-- ASCII approximation of `String.prototype.toUpperCase`, used only to instantiate
the upper-casing parameter of the handlers at concrete inputs. -/
def asciiToUpperCase (s : String) : String :=
  String.mk (s.data.map Char.toUpper)

/-- Value of a character as a digit in some radix up to 36. -/
def digitValue (c : Char) : Option Nat :=
  let n := c.toNat
  if 48 ≤ n ∧ n ≤ 57 then some (n - 48)
  else if 97 ≤ n ∧ n ≤ 122 then some (n - 87)
  else if 65 ≤ n ∧ n ≤ 90 then some (n - 55)
  else none

/-- Whether a character is a digit of radix `R`. -/
def isRadixDigit (R : Nat) (c : Char) : Bool :=
  match digitValue c with
  | some v => decide (v < R)
  | none => false

/-- Numeric value of a list of radix-`R` digits, most significant first. -/
def digitsValue (R : Nat) (Z : List Char) : Nat :=
  Z.foldl (fun acc c => acc * R + (digitValue c).getD 0) 0

/-- Sign step of `parseInt`: a leading `-` or `+` is consumed. -/
def splitSign (S : List Char) : Bool × List Char :=
  match S with
  | [] => (false, [])
  | c :: r => if c = '-' then (true, r) else if c = '+' then (false, r) else (false, c :: r)

/-- Radix step of `parseInt` called without a radix: `0x` / `0X` selects 16. -/
def splitRadix (S : List Char) : Nat × List Char :=
  match S with
  | c :: d :: r => if c = '0' ∧ (d = 'x' ∨ d = 'X') then (16, r) else (10, c :: d :: r)
  | S => (10, S)

/-- The global `parseInt(string)` with no radix argument. -/
def parseInt (s : String) : JsNumber :=
  let S := s.data.dropWhile isWhiteSpace
  let sg := splitSign S
  let rd := splitRadix sg.2
  let Z := rd.2.takeWhile (isRadixDigit rd.1)
  if Z.isEmpty then JsNumber.nan
  else
    let m : Int := (digitsValue rd.1 Z : Nat)
    JsNumber.int (if sg.1 then -m else m)

/-- The comparison `x < k` of a `parseInt` result with an integer literal
(`NaN < k` is false). -/
def JsNumber.ltInt (x : JsNumber) (k : Int) : Bool :=
  match x with
  | JsNumber.nan => false
  | JsNumber.int n => decide (n < k)

/-- The comparison `c >= x` of an integer count with a stored number
(`c >= NaN` is false). -/
def JsNumber.leInt (x : JsNumber) (c : Int) : Bool :=
  match x with
  | JsNumber.nan => false
  | JsNumber.int n => decide (n ≤ c)

/-- The decimal digit character of `d < 10`. -/
def digitChar (d : Nat) : Char :=
  match d with
  | 0 => '0' | 1 => '1' | 2 => '2' | 3 => '3' | 4 => '4'
  | 5 => '5' | 6 => '6' | 7 => '7' | 8 => '8' | _ => '9'

/-- Decimal digits of a natural number, most significant first. -/
def natDigits : Nat → Nat → List Char → List Char
  | 0, _, acc => acc
  | fuel + 1, n, acc =>
    if n < 10 then digitChar n :: acc
    else natDigits fuel (n / 10) (digitChar (n % 10) :: acc)

/-- Number-to-string conversion of an integer-valued number (the text written by
`textContent = n`); decimal notation, as JavaScript prints below 10^21. -/
def numberToString (n : Int) : String :=
  if n < 0 then String.mk ('-' :: natDigits (n.natAbs + 1) n.natAbs [])
  else String.mk (natDigits (n.natAbs + 1) n.natAbs [])

/-- Code-point lexicographic order on strings: the order the store uses to compare
string fields in a range filter. -/
def ltChars : List Char → List Char → Bool
  | [], [] => false
  | [], _ :: _ => true
  | _ :: _, [] => false
  | a :: as, b :: bs =>
    if a.toNat < b.toNat then true
    else if b.toNat < a.toNat then false
    else ltChars as bs

/-- Strict string order `a < b` of the store. -/
def strLt (a b : String) : Bool :=
  ltChars a.data b.data

/-- String order `a >= b` of the store. -/
def strGe (a b : String) : Bool :=
  !(strLt a b)

/-! ## Platform: the clock -/

/-- The UTC fields of a `Date` object. -/
structure Instant where
  year : Nat
  month : Nat
  day : Nat
  hour : Nat
  minute : Nat
  second : Nat
  ms : Nat
  deriving DecidableEq, Repr

/-- Whether a year is a Gregorian leap year. -/
def isLeap (y : Nat) : Bool :=
  (y % 4 == 0 && y % 100 != 0) || y % 400 == 0

/-- Number of days of a month. -/
def daysInMonth (y m : Nat) : Nat :=
  if m = 2 then (if isLeap y then 29 else 28)
  else if m = 4 ∨ m = 6 ∨ m = 9 ∨ m = 11 then 30
  else 31

/-- The instants of years 1 to 9999: `toISOString` prints them, and the day before
them, with a four-digit year. -/
def Instant.Valid (t : Instant) : Prop :=
  1 ≤ t.year ∧ t.year ≤ 9999 ∧ 1 ≤ t.month ∧ t.month ≤ 12 ∧ 1 ≤ t.day ∧ t.day ≤ daysInMonth t.year t.month ∧
  t.hour ≤ 23 ∧ t.minute ≤ 59 ∧ t.second ≤ 59 ∧ t.ms ≤ 999

instance (t : Instant) : Decidable t.Valid := by
  unfold Instant.Valid; infer_instance

/-- The last `w` decimal digits of `n`, zero padded. -/
def padDigits : Nat → Nat → List Char
  | 0, _ => []
  | w + 1, n => padDigits w (n / 10) ++ [digitChar (n % 10)]

/-- The `YYYY-MM-DD` text of a calendar date: the value format of a date input. -/
def dateText (y m d : Nat) : List Char :=
  padDigits 4 y ++ ('-' :: (padDigits 2 m ++ ('-' :: padDigits 2 d)))

/-- The time-of-day part of `toISOString`, from the `T` on. -/
def timeText (t : Instant) : List Char :=
  'T' :: (padDigits 2 t.hour ++ (':' :: (padDigits 2 t.minute ++ (':' ::
    (padDigits 2 t.second ++ ('.' :: (padDigits 3 t.ms ++ ['Z'])))))))

/-- `Date.prototype.toISOString` (years 0 to 9999). -/
def toISOString (t : Instant) : String :=
  String.mk (dateText t.year t.month t.day ++ timeText t)

/-- `s.split('T')[0]`: the text before the first `T`. -/
def splitT0 (s : String) : String :=
  String.mk (s.data.takeWhile (fun c => c != 'T'))

/-- The calendar day before the day of `t` (same time of day). -/
def prevDay (t : Instant) : Instant :=
  if 1 < t.day then { t with day := t.day - 1 }
  else if 1 < t.month then { t with month := t.month - 1, day := daysInMonth t.year (t.month - 1) }
  else { t with year := t.year - 1, month := 12, day := 31 }

/-- The value of a date input set to the day of `t`. -/
def dateValue (t : Instant) : String :=
  String.mk (dateText t.year t.month t.day)

/-- The day of `a` is an earlier calendar day than the day of `b`. -/
def dayLt (a b : Instant) : Prop :=
  a.year < b.year ∨ (a.year = b.year ∧ (a.month < b.month ∨ (a.month = b.month ∧ a.day < b.day)))

instance (a b : Instant) : Decidable (dayLt a b) := by
  unfold dayLt; infer_instance

/-! ## Platform: the document store -/

/-- Point read `doc(id).get()`: the data of the record keyed `id`, if it exists. -/
def getDoc {α : Type} (id : String) (coll : List (String × α)) : Option α :=
  match coll with
  | [] => none
  | e :: rest => if e.1 = id then some e.2 else getDoc id rest

/-- Write `doc(id).set(data)`: replace the record keyed `id`, or create it. -/
def setDoc {α : Type} (id : String) (data : α) (coll : List (String × α)) : List (String × α) :=
  match getDoc id coll with
  | some _ => coll.map (fun e => if e.1 = id then (id, data) else e)
  | none => coll ++ [(id, data)]

/-- The collection with the field change `f` applied to the record keyed `id`. -/
def mapDoc {α : Type} (id : String) (f : α → α) (coll : List (String × α)) : List (String × α) :=
  coll.map (fun e => if e.1 = id then (e.1, f e.2) else e)

/-- Write `doc(id).update(...)`: apply a field change to the record keyed `id`; the
call is rejected when the record does not exist. -/
def updateDoc {α : Type} (id : String) (f : α → α) (coll : List (String × α)) :
    Option (List (String × α)) :=
  match getDoc id coll with
  | some _ => some (mapDoc id f coll)
  | none => none

/-- Write `doc(id).delete()`: remove the record keyed `id` (no error if absent). -/
def deleteDoc {α : Type} (id : String) (coll : List (String × α)) : List (String × α) :=
  coll.filter (fun e => decide (e.1 ≠ id))

/-- A write batch of deletions, committed as one: every queued key is removed. -/
def batchDelete {α : Type} (ids : List String) (coll : List (String × α)) : List (String × α) :=
  ids.foldl (fun c id => deleteDoc id c) coll

/-! ## Data model -/

/-- A record of the `codes` collection. -/
structure CodeDoc where
  code : String
  coin : String
  maxClaims : JsNumber
  expiryDate : String
  claimedCount : Int
  publishedBy : String
  publishedAt : String
  deriving DecidableEq, Repr

/-- A record of the `users` collection. -/
structure UserDoc where
  points : Int
  createdAt : String
  deriving DecidableEq, Repr

/-- A record of the `updates` collection. -/
structure UpdateDoc where
  text : String
  postedBy : String
  postedAt : String
  deriving DecidableEq, Repr

/-- The three collections of the document store. -/
structure Db where
  users : List (String × UserDoc)
  codes : List (String × CodeDoc)
  updates : List (String × UpdateDoc)
  deriving DecidableEq, Repr

/-- An identity handed over by the identity provider. -/
structure User where
  uid : String
  email : String
  deriving DecidableEq, Repr

/-- The script's globals (`currentUser`, `isAdmin`), the page elements it writes and
reads back, and the store it talks to. -/
structure App where
  currentUser : Option User
  isAdmin : Bool
  authModal : Bool
  adminBtn : Bool
  publishModal : Bool
  expiryMin : String
  userPoints : String
  codesList : List (String × CodeDoc)
  adminCodesList : List (String × CodeDoc)
  db : Db
  deriving DecidableEq, Repr

/-- The fields of the publish form and of the admin add form. -/
structure Draft where
  codeInput : String
  coinSelect : String
  maxClaims : String
  expiryDate : String
  deriving DecidableEq, Repr

/-- The field change `claimedCount: FieldValue.increment(k)`. -/
def incrementClaimedCount (k : Int) (c : CodeDoc) : CodeDoc :=
  { c with claimedCount := c.claimedCount + k }

/-- The field change `points: FieldValue.increment(k)`. -/
def incrementPoints (k : Int) (u : UserDoc) : UserDoc :=
  { u with points := u.points + k }

/-- The script's state when it starts: nobody signed in, `isAdmin = false`. -/
def initialApp (userPoints : String) (db : Db) : App :=
  { currentUser := none, isAdmin := false, authModal := false, adminBtn := false,
    publishModal := false, expiryMin := "", userPoints := userPoints, codesList := [],
    adminCodesList := [], db := db }

/-- Keys of the `codes` collection are unique. -/
def Db.WellFormed (db : Db) : Prop :=
  (db.codes.map Prod.fst).Nodup

/-! ## The script -/

/-- The allow-list literal of `checkAdminStatus`. -/
def adminEmails : List String :=
  ["emraaanrasheed@gmail.com"]

/-- `toggleAuthModal`. -/
def toggleAuthModal (s : App) : App :=
  { s with authModal := !s.authModal }

/-- `checkAdminStatus`, with the token promise resolved: the role is recomputed from
the signed-in identity. With nobody signed in `auth.currentUser.getIdTokenResult`
throws and nothing is assigned. -/
def checkAdminStatus (s : App) : App :=
  match s.currentUser with
  | none => s
  | some u =>
    let a := adminEmails.contains u.email
    { s with isAdmin := a, adminBtn := a }

/-- The query of `loadCodes`: `where('expiryDate', '>=', new Date().toISOString())`. -/
def activeCodes (now : Instant) (codes : List (String × CodeDoc)) : List (String × CodeDoc) :=
  codes.filter (fun e => strGe e.2.expiryDate (toISOString now))

/-- `loadCodes`: render the active codes; a failed query is logged and the list is
left as it was. -/
def loadCodes (now : Instant) (up : Bool) (s : App) : App :=
  if up then { s with codesList := activeCodes now s.db.codes } else s

/-- The "Fully Claimed" mark of `createCodeElement`
(`claimedCount >= code.maxClaims`, with `claimedCount || 0`). -/
def isFullyClaimed (c : CodeDoc) : Bool :=
  let claimedCount := if c.claimedCount = 0 then 0 else c.claimedCount
  c.maxClaims.leInt claimedCount

/-- `loadAdminData`: for an administrator, render every code. -/
def loadAdminData (up : Bool) (s : App) : App :=
  if !s.isAdmin then s
  else if up then { s with adminCodesList := s.db.codes } else s

/-- `loadUserData`: show the balance of the user, creating the ledger entry with
`points: 0` when there is none. `getUp` / `setUp` say whether the read and the
write reach the store. -/
def loadUserData (uid : String) (now : Instant) (getUp setUp : Bool) (s : App) : App :=
  if !getUp then s
  else
    match getDoc uid s.db.users with
    | some userData =>
      { s with userPoints := numberToString (if userData.points = 0 then 0 else userData.points) }
    | none =>
      if !setUp then s
      else
        { s with
          db := { s.db with
            users := setDoc uid { points := 0, createdAt := toISOString now } s.db.users },
          userPoints := "0" }

/-- The listener of `initApp`, run on a sign-in (`some user`) or a sign-out
(`none`). -/
def onAuthStateChanged (user : Option User) (now : Instant) (getUp setUp : Bool) (s : App) : App :=
  let s1 := { s with currentUser := user }
  match user with
  | some u => loadUserData u.uid now getUp setUp (checkAdminStatus s1)
  | none => s1

/-- `copyCode`: the claim. `net 0` is the counter update, `net 1` the reload;
`clipboardOk` says whether the clipboard write, made after the update, succeeded. -/
def copyCode (codeId : String) (now : Instant) (net : Nat → Bool) (clipboardOk : Bool)
    (s : App) : App :=
  match s.currentUser with
  | none => s
  | some _ =>
    match (if net 0 then updateDoc codeId (incrementClaimedCount 1) s.db.codes else none) with
    | none => s
    | some codes1 =>
      let s1 := { s with db := { s.db with codes := codes1 } }
      if clipboardOk then loadCodes now (net 1) s1 else s1

/-- `showPublishForm`: the points gate in front of the publish form. -/
def showPublishForm (now : Instant) (s : App) : App :=
  match s.currentUser with
  | none => toggleAuthModal s
  | some _ =>
    let userPoints := parseInt s.userPoints
    if userPoints.ltInt 5 then s
    else { s with publishModal := true, expiryMin := splitT0 (toISOString now) }

/-- `closePublishModal`. -/
def closePublishModal (s : App) : App :=
  { s with publishModal := false }

/-- `publishCode`. `net 0` is the debit, `net 1` the insert, `net 2` the reload of the
codes, `net 3` and `net 4` the read and write of the balance reload; `newId` is the key
the store generates. With nobody signed in `currentUser.uid` throws inside the `try`. -/
def publishCode (toUpperCase : String → String) (d : Draft) (now : Instant) (newId : String)
    (net : Nat → Bool) (s : App) : App :=
  let code := toUpperCase (trim d.codeInput)
  let coin := d.coinSelect
  let maxClaims := parseInt d.maxClaims
  let expiryDate := d.expiryDate
  match s.currentUser with
  | none => s
  | some u =>
    match (if net 0 then updateDoc u.uid (incrementPoints (-5)) s.db.users else none) with
    | none => s
    | some users1 =>
      let s1 := { s with db := { s.db with users := users1 } }
      if net 1 then
        let doc : CodeDoc :=
          { code := code, coin := coin, maxClaims := maxClaims, expiryDate := expiryDate,
            claimedCount := 0, publishedBy := u.uid, publishedAt := toISOString now }
        let s2 := { s1 with db := { s1.db with codes := setDoc newId doc s1.db.codes } }
        loadUserData u.uid now (net 3) (net 4) (loadCodes now (net 2) (closePublishModal s2))
      else s1

/-- `adminAddCode`. `net 0` is the insert, `net 1` and `net 2` the reloads. -/
def adminAddCode (toUpperCase : String → String) (d : Draft) (now : Instant) (newId : String)
    (net : Nat → Bool) (s : App) : App :=
  let code := toUpperCase (trim d.codeInput)
  let coin := d.coinSelect
  let maxClaims := parseInt d.maxClaims
  let expiryDate := d.expiryDate
  if net 0 then
    let doc : CodeDoc :=
      { code := code, coin := coin, maxClaims := maxClaims, expiryDate := expiryDate,
        claimedCount := 0, publishedBy := "admin", publishedAt := toISOString now }
    let s1 := { s with db := { s.db with codes := setDoc newId doc s.db.codes } }
    loadCodes now (net 2) (loadAdminData (net 1) s1)
  else s

/-- `deleteCode`. `confirmed` is the answer to the confirmation dialog, `net 0` the
delete, `net 1` and `net 2` the reloads. -/
def deleteCode (codeId : String) (confirmed : Bool) (now : Instant) (net : Nat → Bool)
    (s : App) : App :=
  if !s.isAdmin then s
  else if confirmed then
    if net 0 then
      let s1 := { s with db := { s.db with codes := deleteDoc codeId s.db.codes } }
      loadCodes now (net 2) (loadAdminData (net 1) s1)
    else s
  else s

/-- `postUpdate`. `net 0` is the insert. With nobody signed in `currentUser.uid`
throws inside the `try`. -/
def postUpdate (updateText : String) (now : Instant) (newId : String) (net : Nat → Bool)
    (s : App) : App :=
  match s.currentUser with
  | none => s
  | some u =>
    if net 0 then
      let doc : UpdateDoc :=
        { text := updateText, postedBy := u.uid, postedAt := toISOString now }
      { s with db := { s.db with updates := setDoc newId doc s.db.updates } }
    else s

/-- The query of `cleanupExpiredCodes`:
`where('expiryDate', '<', new Date().toISOString())`. -/
def expiredCodes (now : Instant) (codes : List (String × CodeDoc)) : List (String × CodeDoc) :=
  codes.filter (fun e => strLt e.2.expiryDate (toISOString now))

/-- `cleanupExpiredCodes`: delete the expired codes as one batch. `net 0` is the
query, `net 1` the commit, `net 2` the reload. -/
def cleanupExpiredCodes (now : Instant) (net : Nat → Bool) (s : App) : App :=
  if net 0 then
    let snapshot := expiredCodes now s.db.codes
    if net 1 then
      loadCodes now (net 2)
        { s with db := { s.db with codes := batchDelete (snapshot.map Prod.fst) s.db.codes } }
    else s
  else s

/-- The hourly timer callback: the sweep runs only when `isAdmin` is set. -/
def hourlyTick (now : Instant) (net : Nat → Bool) (s : App) : App :=
  if s.isAdmin then cleanupExpiredCodes now net s else s

/-- Every store call answered. -/
def allUp : Nat → Bool :=
  fun _ => true

/-- The claim repeated: `copyCode` on the same code `n` times. -/
def claimTimes (codeId : String) (now : Instant) (net : Nat → Bool) (clipboardOk : Bool) :
    Nat → App → App
  | 0, s => s
  | n + 1, s => claimTimes codeId now net clipboardOk n (copyCode codeId now net clipboardOk s)

/-- A run of the identity provider's notifications through the listener. -/
def runAuth (now : Instant) (events : List (Option User)) (s : App) : App :=
  events.foldl (fun st ev => onAuthStateChanged ev now true true st) s

/-- A publish attempt through the page: the publish button runs `showPublishForm`,
and the form is submitted to `publishCode` only when the form is displayed. -/
def publishAttempt (toUpperCase : String → String) (d : Draft) (now : Instant) (newId : String)
    (net : Nat → Bool) (s : App) : App :=
  let s1 := showPublishForm now s
  if s1.publishModal then publishCode toUpperCase d now newId net s1 else s1

/-! ## Auxiliary predicates -/

/-- The characters `natDigits` produces. -/
def IsDecimal (l : List Char) : Prop :=
  ∀ c ∈ l, ∃ d, d < 10 ∧ c = digitChar d

/-! ## Fixtures -/

/-- The instant 2025-01-01T10:00:00.000Z. -/
def t0 : Instant :=
  { year := 2025, month := 1, day := 1, hour := 10, minute := 0, second := 0, ms := 0 }

/-- An ordinary user. -/
def alice : User :=
  { uid := "uid-alice", email := "alice@example.com" }

/-- A second ordinary user. -/
def bob : User :=
  { uid := "uid-bob", email := "bob@example.com" }

/-- The user on the allow-list. -/
def owner : User :=
  { uid := "uid-owner", email := "emraaanrasheed@gmail.com" }

/-- The code of the scenario: `ABC123`, two claims allowed, expiring the next day. -/
def abc123 : CodeDoc :=
  { code := "ABC123", coin := "USDT", maxClaims := JsNumber.int 2, expiryDate := "2025-01-02",
    claimedCount := 0, publishedBy := "uid-alice", publishedAt := "2024-12-30T09:00:00.000Z" }

/-- A code that expired the day before `t0`. -/
def oldCode : CodeDoc :=
  { code := "OLD111", coin := "BTC", maxClaims := JsNumber.int 5, expiryDate := "2024-12-31",
    claimedCount := 1, publishedBy := "admin", publishedAt := "2024-12-20T09:00:00.000Z" }

/-- A code whose expiry date is the day of `t0`. -/
def todayCode : CodeDoc :=
  { code := "DAY222", coin := "BNB", maxClaims := JsNumber.int 5, expiryDate := "2025-01-01",
    claimedCount := 0, publishedBy := "uid-bob", publishedAt := "2024-12-31T23:00:00.000Z" }

/-- A store with two ledger entries (10 and 4 points) and three codes. -/
def demoDb : Db :=
  { users := [("uid-alice", { points := 10, createdAt := "2024-12-01T00:00:00.000Z" }),
              ("uid-bob", { points := 4, createdAt := "2024-12-02T00:00:00.000Z" })],
    codes := [("c1", abc123), ("c2", oldCode), ("c3", todayCode)],
    updates := [] }

/-- The page before anybody signs in. -/
def guest : App :=
  initialApp "0" demoDb

/-- The page after `alice` signed in. -/
def aliceApp : App :=
  onAuthStateChanged (some alice) t0 true true guest

/-- The page after `bob` signed in. -/
def bobApp : App :=
  onAuthStateChanged (some bob) t0 true true guest

/-- The page after `alice` signed in and out and `bob` signed in while the read of
his ledger entry failed: the balance shown is still the one of `alice`. -/
def staleApp : App :=
  onAuthStateChanged (some bob) t0 false true
    (onAuthStateChanged none t0 true true aliceApp)

/-- The page after `alice` opened the publish form and signed out and `bob` signed in:
his balance is shown, and the form is still displayed. -/
def openFormApp : App :=
  onAuthStateChanged (some bob) t0 true true
    (onAuthStateChanged none t0 true true (showPublishForm t0 aliceApp))

/-- A well-formed draft. -/
def goodDraft : Draft :=
  { codeInput := "  ab12cd ", coinSelect := "BTC", maxClaims := "3", expiryDate := "2025-01-05" }

/-- A draft with empty fields and a `maxClaims` of zero. -/
def zeroDraft : Draft :=
  { codeInput := "", coinSelect := "", maxClaims := "0", expiryDate := "" }

/-- A draft whose `maxClaims` is left empty. -/
def emptyDraft : Draft :=
  { codeInput := "X1", coinSelect := "BTC", maxClaims := "", expiryDate := "2025-01-05" }

/-- The page after `owner` signed in and then signed out. -/
def signedOutOwner : App :=
  runAuth t0 [some owner, none] guest

instance (db : Db) : Decidable db.WellFormed := by
  unfold Db.WellFormed; infer_instance

/-! ## String order and dates -/

theorem ltChars_append_left (p a b : List Char) : ltChars (p ++ a) (p ++ b) = ltChars a b := by
  induction p with
  | nil => rfl
  | cons c cs ih => simp [ltChars, ih]

theorem ltChars_append_of_lt (x y r s : List Char) (hlen : x.length = y.length)
    (h : ltChars x y = true) : ltChars (x ++ r) (y ++ s) = true := by
  induction x generalizing y with
  | nil =>
    cases y with
    | nil => simp [ltChars] at h
    | cons b bs => simp at hlen
  | cons a as ih =>
    cases y with
    | nil => simp at hlen
    | cons b bs =>
      simp only [List.length_cons, Nat.add_right_cancel_iff] at hlen
      simp only [ltChars, List.cons_append] at h ⊢
      by_cases h1 : a.toNat < b.toNat
      · simp [h1]
      · by_cases h2 : b.toNat < a.toNat
        · simp [h1, h2] at h
        · simp only [h1, h2, if_false] at h ⊢
          exact ih bs hlen h

theorem ltChars_prefix (p : List Char) (c : Char) (r : List Char) :
    ltChars p (p ++ c :: r) = true := by
  have h := ltChars_append_left p [] (c :: r)
  simpa [ltChars] using h

theorem digitChar_toNat (d : Nat) (h : d < 10) : (digitChar d).toNat = 48 + d := by
  interval_cases d <;> rfl

theorem padDigits_length (w n : Nat) : (padDigits w n).length = w := by
  induction w generalizing n with
  | zero => rfl
  | succ w ih => simp [padDigits, ih]

theorem ltChars_padDigits (w a b : Nat) (hab : a < b) (hb : b < 10 ^ w) :
    ltChars (padDigits w a) (padDigits w b) = true := by
  induction w generalizing a b with
  | zero => simp at hb; omega
  | succ w ih =>
    simp only [padDigits]
    by_cases hq : a / 10 < b / 10
    · apply ltChars_append_of_lt
      · simp [padDigits_length]
      · apply ih _ _ hq
        rw [pow_succ] at hb
        omega
    · have hq2 : a / 10 = b / 10 := by omega
      rw [hq2, ltChars_append_left]
      have h1 : a % 10 < b % 10 := by omega
      simp [ltChars, digitChar_toNat _ (Nat.mod_lt a (by norm_num : 10 > 0)),
        digitChar_toNat _ (Nat.mod_lt b (by norm_num : 10 > 0)), h1]

theorem ltChars_pad_append (w a b : Nat) (r s : List Char) (hab : a < b) (hb : b < 10 ^ w) :
    ltChars (padDigits w a ++ r) (padDigits w b ++ s) = true :=
  ltChars_append_of_lt _ _ r s (by simp [padDigits_length]) (ltChars_padDigits w a b hab hb)

theorem ltChars_cons_same (c : Char) (a b : List Char) :
    ltChars (c :: a) (c :: b) = ltChars a b := by
  simp [ltChars]

theorem ltChars_dateText (y1 m1 d1 y2 m2 d2 : Nat) (r s : List Char)
    (hy : y2 < 10 ^ 4) (hm : m2 < 10 ^ 2) (hd : d2 < 10 ^ 2)
    (h : y1 < y2 ∨ (y1 = y2 ∧ (m1 < m2 ∨ (m1 = m2 ∧ d1 < d2)))) :
    ltChars (dateText y1 m1 d1 ++ r) (dateText y2 m2 d2 ++ s) = true := by
  simp only [dateText, List.append_assoc, List.cons_append]
  rcases h with h | ⟨rfl, h | ⟨rfl, h⟩⟩
  · exact ltChars_pad_append 4 y1 y2 _ _ h hy
  · rw [ltChars_append_left, ltChars_cons_same]
    exact ltChars_pad_append 2 m1 m2 _ _ h hm
  · rw [ltChars_append_left, ltChars_cons_same, ltChars_append_left, ltChars_cons_same]
    exact ltChars_pad_append 2 d1 d2 _ _ h hd

theorem daysInMonth_le (y m : Nat) : daysInMonth y m ≤ 31 := by
  unfold daysInMonth
  split_ifs <;> omega

theorem daysInMonth_pos (y m : Nat) : 1 ≤ daysInMonth y m := by
  unfold daysInMonth
  split_ifs <;> omega

theorem prevDay_before (t : Instant) (h : t.Valid) : dayLt (prevDay t) t := by
  obtain ⟨hy1, hy, hm1, hm, hd1, hd, -⟩ := h
  have hdp := daysInMonth_pos t.year (t.month - 1)
  unfold dayLt prevDay
  split_ifs with h1 h2
  · right; refine ⟨rfl, Or.inr ⟨rfl, ?_⟩⟩; simp; omega
  · right; refine ⟨rfl, Or.inl ?_⟩; simp; omega
  · left; simp; omega

theorem ltChars_asymm (a b : List Char) (h : ltChars a b = true) : ltChars b a = false := by
  induction a generalizing b with
  | nil =>
    cases b with
    | nil => rfl
    | cons c cs => rfl
  | cons x xs ih =>
    cases b with
    | nil => simp [ltChars] at h
    | cons c cs =>
      simp only [ltChars] at h ⊢
      by_cases h1 : x.toNat < c.toNat
      · have h2 : ¬ c.toNat < x.toNat := by omega
        simp [h1, h2]
      · by_cases h2 : c.toNat < x.toNat
        · simp [h1, h2] at h
        · simp only [h1, h2, if_false] at h ⊢
          exact ih cs h

theorem strLt_earlier_day (e t : Instant) (h : t.Valid) (hlt : dayLt e t) :
    strLt (dateValue e) (toISOString t) = true := by
  obtain ⟨hy1, hy, hm1, hm, hd1, hd, -⟩ := h
  have hd31 := daysInMonth_le t.year t.month
  have := ltChars_dateText e.year e.month e.day t.year t.month t.day [] (timeText t)
    (by norm_num; omega) (by norm_num; omega) (by norm_num; omega) hlt
  simpa [strLt, toISOString, dateValue] using this

theorem strLt_later_day (e t : Instant) (h : e.Valid) (hlt : dayLt t e) :
    strLt (dateValue e) (toISOString t) = false := by
  obtain ⟨hy1, hy, hm1, hm, hd1, hd, -⟩ := h
  have hd31 := daysInMonth_le e.year e.month
  have := ltChars_dateText t.year t.month t.day e.year e.month e.day (timeText t) []
    (by norm_num; omega) (by norm_num; omega) (by norm_num; omega) hlt
  simp only [strLt, toISOString, dateValue]
  apply ltChars_asymm
  simpa using this

theorem strLt_yesterday (t : Instant) (h : t.Valid) :
    strLt (dateValue (prevDay t)) (toISOString t) = true :=
  strLt_earlier_day (prevDay t) t h (prevDay_before t h)

theorem digitChar_ne_T (d : Nat) : digitChar d ≠ 'T' := by
  unfold digitChar
  split <;> decide

theorem padDigits_no_T (w n : Nat) : ∀ c ∈ padDigits w n, (c != 'T') = true := by
  induction w generalizing n with
  | zero => simp [padDigits]
  | succ w ih =>
    intro c hc
    simp only [padDigits, List.mem_append, List.mem_singleton] at hc
    rcases hc with hc | rfl
    · exact ih _ c hc
    · simpa using digitChar_ne_T _

theorem splitT0_toISOString (t : Instant) : splitT0 (toISOString t) = dateValue t := by
  have hd : ∀ c ∈ dateText t.year t.month t.day, (c != 'T') = true := by
    intro c hc
    unfold dateText at hc
    rcases List.mem_append.mp hc with h | h
    · exact padDigits_no_T _ _ c h
    · rcases List.mem_cons.mp h with h | h
      · subst h; decide
      · rcases List.mem_append.mp h with h | h
        · exact padDigits_no_T _ _ c h
        · rcases List.mem_cons.mp h with h | h
          · subst h; decide
          · exact padDigits_no_T _ _ c h
  simp only [splitT0, toISOString, timeText, dateValue]
  congr 1
  rw [List.takeWhile_append_of_pos hd]
  simp [List.takeWhile]

theorem strLt_today (t : Instant) : strLt (splitT0 (toISOString t)) (toISOString t) = true := by
  rw [splitT0_toISOString]
  simp only [strLt, toISOString, timeText, dateValue]
  exact ltChars_prefix _ _ _

theorem batchDelete_eq_filter {α : Type} (ids : List String) (coll : List (String × α)) :
    batchDelete ids coll = coll.filter (fun e => decide (e.1 ∉ ids)) := by
  unfold batchDelete
  induction ids generalizing coll with
  | nil => simp
  | cons i is ih =>
    rw [List.foldl_cons, ih]
    simp only [deleteDoc, List.filter_filter]
    apply List.filter_congr
    intro e _
    simp [List.mem_cons, not_or, Bool.and_comm]

theorem mem_expired_keys_iff (now : Instant) (codes : List (String × CodeDoc))
    (hwf : (codes.map Prod.fst).Nodup) (e : String × CodeDoc) (he : e ∈ codes) :
    e.1 ∈ (expiredCodes now codes).map Prod.fst ↔ strLt e.2.expiryDate (toISOString now) = true := by
  simp only [expiredCodes, List.mem_map, List.mem_filter]
  constructor
  · rintro ⟨e2, ⟨he2, hexp⟩, hk⟩
    have := List.inj_on_of_nodup_map hwf he2 he hk
    subst this
    exact hexp
  · intro h
    exact ⟨e, ⟨he, h⟩, rfl⟩

/-! ## Store lemmas -/

theorem getDoc_mapDoc_same {α : Type} (id : String) (f : α → α) (coll : List (String × α)) :
    getDoc id (mapDoc id f coll) = (getDoc id coll).map f := by
  unfold mapDoc
  induction coll with
  | nil => rfl
  | cons e rest ih =>
    by_cases h : e.1 = id
    · simp [getDoc, h]
    · simp [getDoc, h, ih]

theorem getDoc_mapDoc_other {α : Type} (id id2 : String) (f : α → α) (coll : List (String × α))
    (hne : id2 ≠ id) : getDoc id2 (mapDoc id f coll) = getDoc id2 coll := by
  unfold mapDoc
  induction coll with
  | nil => rfl
  | cons e rest ih =>
    obtain ⟨k, v⟩ := e
    by_cases h : k = id
    · simp only [List.map_cons, h, if_true, getDoc]
      rw [if_neg (fun h3 => hne h3.symm), if_neg (fun h3 => hne h3.symm), ih]
    · by_cases h2 : k = id2
      · subst h2
        simp [getDoc, hne]
      · simp [getDoc, h, h2, ih]

theorem getDoc_eq_none_iff {α : Type} (id : String) (coll : List (String × α)) :
    getDoc id coll = none ↔ ∀ e ∈ coll, e.1 ≠ id := by
  induction coll with
  | nil => simp [getDoc]
  | cons e rest ih =>
    by_cases h : e.1 = id
    · simp [getDoc, h]
    · simp [getDoc, h, ih]

theorem getDoc_append_new {α : Type} (id : String) (data : α) (coll : List (String × α))
    (h : getDoc id coll = none) : getDoc id (coll ++ [(id, data)]) = some data := by
  induction coll with
  | nil => simp [getDoc]
  | cons e rest ih =>
    by_cases h1 : e.1 = id
    · simp [getDoc, h1] at h
    · simp only [getDoc, h1, if_false] at h
      simp [getDoc, h1, ih h]

/-! ## Number texts -/

theorem natDigits_acc (fuel n : Nat) (acc : List Char) :
    natDigits fuel n acc = natDigits fuel n [] ++ acc := by
  induction fuel generalizing n acc with
  | zero => simp [natDigits]
  | succ fuel ih =>
    simp only [natDigits]
    split_ifs
    · simp
    · rw [ih, ih (n / 10) [digitChar (n % 10)]]
      simp

theorem digitValue_digitChar (d : Nat) (h : d < 10) : digitValue (digitChar d) = some d := by
  interval_cases d <;> decide

theorem digitsValue_append (R : Nat) (l : List Char) (c : Char) :
    digitsValue R (l ++ [c]) = digitsValue R l * R + (digitValue c).getD 0 := by
  simp [digitsValue, List.foldl_append]

theorem natDigits_spec (fuel n : Nat) (h : n < fuel) :
    natDigits fuel n [] ≠ [] ∧ IsDecimal (natDigits fuel n []) ∧
      digitsValue 10 (natDigits fuel n []) = n := by
  induction fuel generalizing n with
  | zero => omega
  | succ fuel ih =>
    simp only [natDigits]
    split_ifs with h10
    · refine ⟨by simp, ?_, ?_⟩
      · intro c hc
        simp only [List.mem_singleton] at hc
        exact ⟨n, h10, hc⟩
      · simp [digitsValue, digitValue_digitChar n h10]
    · rw [natDigits_acc]
      obtain ⟨-, h2, h3⟩ := ih (n / 10) (by omega)
      refine ⟨by simp, ?_, ?_⟩
      · intro c hc
        simp only [List.mem_append, List.mem_singleton] at hc
        rcases hc with hc | hc
        · exact h2 c hc
        · exact ⟨n % 10, Nat.mod_lt n (by norm_num), hc⟩
      · rw [digitsValue_append, h3, digitValue_digitChar _ (Nat.mod_lt n (by norm_num))]
        simp only [Option.getD_some]
        omega

theorem digitChar_facts (d : Nat) (h : d < 10) :
    isWhiteSpace (digitChar d) = false ∧ digitChar d ≠ '-' ∧ digitChar d ≠ '+' ∧
      digitChar d ≠ 'x' ∧ digitChar d ≠ 'X' ∧ isRadixDigit 10 (digitChar d) = true := by
  interval_cases d <;> decide

theorem parseInt_decimal (l : List Char) (hne : l ≠ []) (hdec : IsDecimal l) (neg : Bool) :
    parseInt (String.mk (if neg then '-' :: l else l)) =
      JsNumber.int (if neg then -(digitsValue 10 l : Int) else (digitsValue 10 l : Int)) := by
  obtain ⟨c, r, rfl⟩ := List.exists_cons_of_ne_nil hne
  obtain ⟨d, hd, hc⟩ := hdec c (List.mem_cons_self _ _)
  obtain ⟨hws, hminus, hplus, -, -, hdig⟩ := digitChar_facts d hd
  have hall : ∀ x ∈ c :: r, isRadixDigit 10 x = true := by
    intro x hx
    obtain ⟨e, he, hxe⟩ := hdec x hx
    rw [hxe]
    exact (digitChar_facts e he).2.2.2.2.2
  have hsign : parseInt (String.mk (if neg then '-' :: (c :: r) else c :: r)) =
      (let rd := splitRadix (c :: r)
       let Z := rd.2.takeWhile (isRadixDigit rd.1)
       if Z.isEmpty then JsNumber.nan
       else JsNumber.int (if neg then -((digitsValue rd.1 Z : Nat) : Int)
         else ((digitsValue rd.1 Z : Nat) : Int))) := by
    cases neg
    · simp only [parseInt, Bool.false_eq_true, if_false]
      rw [List.dropWhile_cons_of_neg (by rw [hc, hws]; simp)]
      simp [splitSign, hc, hminus, hplus]
    · simp only [parseInt, if_true]
      rw [List.dropWhile_cons_of_neg (by decide)]
      simp [splitSign]
  have hradix : splitRadix (c :: r) = (10, c :: r) := by
    cases r with
    | nil => rfl
    | cons e r2 =>
      obtain ⟨k, hk, hek⟩ := hdec e (by simp)
      obtain ⟨-, -, -, hx, hX, -⟩ := digitChar_facts k hk
      simp [splitRadix, hek, hx, hX]
  rw [hsign, hradix]
  simp only
  rw [List.takeWhile_eq_self_iff.mpr hall]
  simp

theorem parseInt_numberToString (p : Int) : parseInt (numberToString p) = JsNumber.int p := by
  obtain ⟨hne, hdec, hval⟩ := natDigits_spec (p.natAbs + 1) p.natAbs (Nat.lt_succ_self _)
  unfold numberToString
  split_ifs with hneg
  · have := parseInt_decimal _ hne hdec true
    simp only [if_true] at this
    rw [this, hval]
    congr 1
    omega
  · have := parseInt_decimal _ hne hdec false
    simp only [Bool.false_eq_true, if_false] at this
    rw [this, hval]
    congr 1
    omega

/-! ## Claiming -/

theorem copyCode_step (codeId : String) (now : Instant) (net : Nat → Bool) (clipboardOk : Bool)
    (s : App) (u : User) (c : CodeDoc) (huser : s.currentUser = some u)
    (hget : getDoc codeId s.db.codes = some c) (hnet : net 0 = true) :
    (copyCode codeId now net clipboardOk s).currentUser = some u ∧
    getDoc codeId (copyCode codeId now net clipboardOk s).db.codes =
      some { c with claimedCount := c.claimedCount + 1 } ∧
    (∀ id2, id2 ≠ codeId →
      getDoc id2 (copyCode codeId now net clipboardOk s).db.codes = getDoc id2 s.db.codes) ∧
    (copyCode codeId now net clipboardOk s).db.users = s.db.users ∧
    (copyCode codeId now net clipboardOk s).db.updates = s.db.updates := by
  have hdb : (copyCode codeId now net clipboardOk s).currentUser = some u ∧
      (copyCode codeId now net clipboardOk s).db =
        { s.db with codes := mapDoc codeId (incrementClaimedCount 1) s.db.codes } := by
    simp only [copyCode, huser, hnet, if_true, updateDoc, hget]
    cases clipboardOk <;> cases net 1 <;> simp [loadCodes, huser]
  refine ⟨hdb.1, ?_, ?_, ?_, ?_⟩
  · rw [hdb.2]
    simp only
    rw [getDoc_mapDoc_same, hget]
    rfl
  · intro id2 hne
    rw [hdb.2]
    simp only
    exact getDoc_mapDoc_other codeId id2 _ _ hne
  · rw [hdb.2]
  · rw [hdb.2]

theorem claimTimes_from (n : Nat) (codeId : String) (now : Instant) (net : Nat → Bool)
    (clipboardOk : Bool) (s : App) (u : User) (c : CodeDoc) (huser : s.currentUser = some u)
    (hget : getDoc codeId s.db.codes = some c) (hnet : net 0 = true) :
    (claimTimes codeId now net clipboardOk n s).currentUser = some u ∧
    getDoc codeId (claimTimes codeId now net clipboardOk n s).db.codes =
      some { c with claimedCount := c.claimedCount + n } := by
  induction n generalizing s c with
  | zero => simp [claimTimes, huser, hget]
  | succ n ih =>
    obtain ⟨h1, h2, -⟩ := copyCode_step codeId now net clipboardOk s u c huser hget hnet
    have := ih (copyCode codeId now net clipboardOk s) _ h1 h2
    simp only [claimTimes]
    refine ⟨this.1, ?_⟩
    rw [this.2]
    simp only [Nat.cast_add, Nat.cast_one]
    congr 2
    ring

/-! ## Publishing and the ledger -/

theorem loadCodes_db (now : Instant) (up : Bool) (s : App) : (loadCodes now up s).db = s.db := by
  cases up <;> rfl

theorem loadUserData_db_of_entry (uid : String) (now : Instant) (getUp setUp : Bool) (s : App)
    (ud : UserDoc) (h : getDoc uid s.db.users = some ud) :
    (loadUserData uid now getUp setUp s).db = s.db := by
  cases getUp <;> simp [loadUserData, h]

theorem loadUserData_shows_balance (uid : String) (now : Instant) (setUp : Bool) (s : App)
    (ud : UserDoc) (h : getDoc uid s.db.users = some ud) :
    (loadUserData uid now true setUp s).userPoints = numberToString ud.points := by
  simp only [loadUserData, Bool.not_true, Bool.false_eq_true, if_false, h]
  split_ifs with h0
  · rw [h0]
  · rfl

theorem publishCode_db (toUpperCase : String → String) (d : Draft) (now : Instant)
    (newId : String) (net : Nat → Bool) (s : App) (u : User) (ud : UserDoc)
    (huser : s.currentUser = some u) (hled : getDoc u.uid s.db.users = some ud)
    (hdebit : net 0 = true) (hadd : net 1 = true) :
    (publishCode toUpperCase d now newId net s).db =
      { users := mapDoc u.uid (incrementPoints (-5)) s.db.users,
        codes := setDoc newId
          { code := toUpperCase (trim d.codeInput), coin := d.coinSelect,
            maxClaims := parseInt d.maxClaims, expiryDate := d.expiryDate, claimedCount := 0,
            publishedBy := u.uid, publishedAt := toISOString now } s.db.codes,
        updates := s.db.updates } := by
  simp only [publishCode, huser, hdebit, hadd, if_true, updateDoc, hled]
  rw [loadUserData_db_of_entry _ _ _ _ _ (incrementPoints (-5) ud), loadCodes_db]
  · rfl
  · rw [loadCodes_db]
    simp only [closePublishModal]
    rw [getDoc_mapDoc_same, hled]
    rfl

/-! ## Session and role lemmas -/

/-- A session without the administrator flag cannot delete: `deleteCode` returns at
its first line. -/
theorem deleteCode_of_not_admin (codeId : String) (confirmed : Bool) (now : Instant)
    (net : Nat → Bool) (s : App) (h : s.isAdmin = false) :
    deleteCode codeId confirmed now net s = s := by
  simp [deleteCode, h]

/-- The hourly timer does nothing in a session without the administrator flag. -/
theorem hourlyTick_of_not_admin (now : Instant) (net : Nat → Bool) (s : App)
    (h : s.isAdmin = false) : hourlyTick now net s = s := by
  simp [hourlyTick, h]

/-- After a sign-in the flag is the allow-list test of the new identity. -/
theorem onAuthStateChanged_signIn_role (u : User) (now : Instant) (getUp setUp : Bool)
    (s : App) :
    (onAuthStateChanged (some u) now getUp setUp s).isAdmin = adminEmails.contains u.email ∧
    (onAuthStateChanged (some u) now getUp setUp s).currentUser = some u := by
  simp only [onAuthStateChanged, checkAdminStatus, loadUserData]
  cases getUp <;> cases setUp <;> simp <;> split <;> simp

/-- A sign-out clears `currentUser` and leaves `isAdmin` as it was. -/
theorem onAuthStateChanged_signOut_role (now : Instant) (getUp setUp : Bool) (s : App) :
    (onAuthStateChanged none now getUp setUp s).isAdmin = s.isAdmin ∧
    (onAuthStateChanged none now getUp setUp s).currentUser = none := by
  simp [onAuthStateChanged]

/-- At day granularity: a stored code whose `expiryDate` is the date text of a day `e`
is listed at `now` exactly when `e` is a later calendar day than the day of `now`. -/
theorem listed_iff_expiry_after_today (now e : Instant) (s : App) (c : String × CodeDoc)
    (hnow : now.Valid) (he : e.Valid) (hc : c ∈ s.db.codes)
    (hexp : c.2.expiryDate = dateValue e) :
    c ∈ (loadCodes now true s).codesList ↔ dayLt now e := by
  simp only [loadCodes, activeCodes, if_true, List.mem_filter, strGe, hc, true_and, hexp,
    Bool.not_eq_true']
  constructor
  · intro h
    by_contra hnot
    by_cases hlt : dayLt e now
    · rw [strLt_earlier_day e now hnow hlt] at h
      exact Bool.noConfusion h
    · have heq : dateValue e = dateValue now := by
        unfold dayLt at hnot hlt
        have hy : e.year = now.year := by omega
        have hm : e.month = now.month := by omega
        have hd : e.day = now.day := by omega
        simp [dateValue, hy, hm, hd]
      rw [heq, ← splitT0_toISOString, strLt_today] at h
      exact Bool.noConfusion h
  · exact strLt_later_day e now he

/-! ## The claims -/

/-- C1: for every store content and every `now`, `loadCodes` lists exactly the stored
codes whose `expiryDate` is `>=` the ISO text of `now` (same records, same order,
store untouched); and when `now` is a calendar instant, a code whose `expiryDate` is
the day before `now` is never listed. -/
theorem loadCodes_lists_exactly_active (now : Instant) (s : App) :
    (∀ e, e ∈ (loadCodes now true s).codesList ↔
      (e ∈ s.db.codes ∧ strGe e.2.expiryDate (toISOString now) = true)) ∧
    List.Sublist (loadCodes now true s).codesList s.db.codes ∧
    (loadCodes now true s).db = s.db ∧
    (now.Valid →
      ∀ e, e.2.expiryDate = dateValue (prevDay now) → e ∉ (loadCodes now true s).codesList) := by
  refine ⟨?_, ?_, rfl, ?_⟩
  · intro e
    simp [loadCodes, activeCodes, List.mem_filter]
  · simp only [loadCodes, activeCodes, if_true]
    exact List.filter_sublist _
  · intro hnow e he hmem
    simp only [loadCodes, activeCodes, if_true, List.mem_filter, strGe] at hmem
    rw [he, strLt_yesterday now hnow] at hmem
    simp at hmem

/-- C1 at 2025-01-01T10:00Z on the demo store: only `ABC123` (expiring 2025-01-02) is
listed, and no code dated 2024-12-31 can be. -/
theorem loadCodes_lists_exactly_active_witness :
    t0.Valid ∧ (loadCodes t0 true guest).codesList = [("c1", abc123)] ∧
    dateValue (prevDay t0) = "2024-12-31" ∧
    (∀ e : String × CodeDoc, e.2.expiryDate = dateValue (prevDay t0) →
      e ∉ (loadCodes t0 true guest).codesList) :=
  ⟨by decide, by decide, by decide,
    (loadCodes_lists_exactly_active t0 guest).2.2.2 (by decide)⟩

/-- C2 (as the script behaves): a stored code whose `expiryDate` is the current day,
the `min` the publish form sets, is not listed by `loadCodes` at any time of that
day and is deleted by `cleanupExpiredCodes`. -/
theorem expiring_today_hidden_and_purged (now : Instant) (s : App) (e : String × CodeDoc)
    (he : e ∈ s.db.codes) (hexp : e.2.expiryDate = splitT0 (toISOString now)) :
    e ∉ (loadCodes now true s).codesList ∧ e ∉ (cleanupExpiredCodes now allUp s).db.codes := by
  have hlt : strLt e.2.expiryDate (toISOString now) = true := by
    rw [hexp]; exact strLt_today now
  constructor
  · intro hmem
    simp only [loadCodes, activeCodes, if_true, List.mem_filter, strGe, hlt] at hmem
    simp at hmem
  · intro hmem
    simp only [cleanupExpiredCodes, allUp, if_true, loadCodes, batchDelete_eq_filter,
      List.mem_filter, decide_eq_true_eq] at hmem
    apply hmem.2
    simp only [expiredCodes, List.mem_map, List.mem_filter]
    exact ⟨e, ⟨he, hlt⟩, rfl⟩

/-- C2 at 2025-01-01T10:00Z: the code dated 2025-01-01 is stored, carries the date
the publish form offers as its minimum, is not listed and is swept. -/
theorem expiring_today_hidden_and_purged_witness :
    ("c3", todayCode) ∈ guest.db.codes ∧ todayCode.expiryDate = splitT0 (toISOString t0) ∧
    ("c3", todayCode) ∉ (loadCodes t0 true guest).codesList ∧
    ("c3", todayCode) ∉ (cleanupExpiredCodes t0 allUp guest).db.codes :=
  ⟨by decide, by decide,
    expiring_today_hidden_and_purged t0 guest ("c3", todayCode) (by decide) (by decide)⟩

/-- C3: with every store call answered, `cleanupExpiredCodes` leaves in `codes`
exactly the records whose `expiryDate` is not `<` the ISO text of `now`, each
unchanged and in order; `users` and `updates` are untouched; the number of records
removed is the size of the query result; and when no code matches, the store is
unchanged and that number is 0. -/
theorem cleanupExpiredCodes_deletes_exactly_expired (now : Instant) (s : App)
    (hwf : s.db.WellFormed) :
    (cleanupExpiredCodes now allUp s).db.codes =
      s.db.codes.filter (fun e => !(strLt e.2.expiryDate (toISOString now))) ∧
    (∀ e, e ∈ (cleanupExpiredCodes now allUp s).db.codes ↔
      (e ∈ s.db.codes ∧ strLt e.2.expiryDate (toISOString now) = false)) ∧
    (cleanupExpiredCodes now allUp s).db.users = s.db.users ∧
    (cleanupExpiredCodes now allUp s).db.updates = s.db.updates ∧
    (cleanupExpiredCodes now allUp s).db.codes.length + (expiredCodes now s.db.codes).length =
      s.db.codes.length ∧
    ((∀ e ∈ s.db.codes, strLt e.2.expiryDate (toISOString now) = false) →
      (cleanupExpiredCodes now allUp s).db = s.db ∧ (expiredCodes now s.db.codes).length = 0) := by
  have hcodes : (cleanupExpiredCodes now allUp s).db.codes =
      s.db.codes.filter (fun e => !(strLt e.2.expiryDate (toISOString now))) := by
    simp only [cleanupExpiredCodes, allUp, if_true, loadCodes, batchDelete_eq_filter]
    apply List.filter_congr
    intro e he
    have := mem_expired_keys_iff now s.db.codes hwf e he
    by_cases h : strLt e.2.expiryDate (toISOString now) = true
    · simp [h, this.mpr h]
    · have h2 : e.1 ∉ List.map Prod.fst (expiredCodes now s.db.codes) := fun hm => h (this.mp hm)
      simp [h, h2]
  have husers : (cleanupExpiredCodes now allUp s).db.users = s.db.users := by
    simp [cleanupExpiredCodes, allUp, loadCodes]
  have hupd : (cleanupExpiredCodes now allUp s).db.updates = s.db.updates := by
    simp [cleanupExpiredCodes, allUp, loadCodes]
  refine ⟨hcodes, ?_, husers, hupd, ?_, ?_⟩
  · intro e
    rw [hcodes]
    simp [List.mem_filter]
  · rw [hcodes]
    simp only [expiredCodes]
    have := List.length_eq_length_filter_add (l := s.db.codes) (fun e : String × CodeDoc =>
      strLt e.2.expiryDate (toISOString now))
    simp only at this
    omega
  · intro hnone
    have hfix : (cleanupExpiredCodes now allUp s).db.codes = s.db.codes := by
      rw [hcodes]
      apply List.filter_eq_self.mpr
      intro e he
      simp [hnone e he]
    constructor
    · cases hdb : (cleanupExpiredCodes now allUp s).db with
      | mk u c p =>
        rw [hdb] at hfix husers hupd
        simp only at hfix husers hupd
        subst hfix husers hupd
        rfl
    · simp only [expiredCodes, List.length_eq_zero, List.filter_eq_nil_iff]
      intro e he
      simp [hnone e he]

/-- C3 on the demo store: the sweep at 2025-01-01T10:00Z keeps `ABC123` only. -/
theorem cleanupExpiredCodes_deletes_exactly_expired_witness :
    guest.db.WellFormed ∧
    (cleanupExpiredCodes t0 allUp guest).db.codes =
      guest.db.codes.filter (fun e => !(strLt e.2.expiryDate (toISOString t0))) ∧
    (cleanupExpiredCodes t0 allUp guest).db.codes = [("c1", abc123)] :=
  ⟨by decide, (cleanupExpiredCodes_deletes_exactly_expired t0 guest (by decide)).1, by decide⟩

/-- C4: for a signed-in user and a fresh code (`claimedCount = 0`) with any
`maxClaims`, `n` claims whose counter update reaches the store leave
`claimedCount = n` and every other field as it was; no comparison with `maxClaims`
is made: the code is marked fully claimed exactly when `maxClaims` is a number
`<= n`, and one more claim brings the counter to `n + 1`. -/
theorem claimTimes_counts (n : Nat) (codeId : String) (now : Instant) (net : Nat → Bool)
    (clipboardOk : Bool) (s : App) (u : User) (c : CodeDoc) (huser : s.currentUser = some u)
    (hget : getDoc codeId s.db.codes = some c) (hfresh : c.claimedCount = 0)
    (hnet : net 0 = true) :
    getDoc codeId (claimTimes codeId now net clipboardOk n s).db.codes =
      some { c with claimedCount := n } ∧
    isFullyClaimed { c with claimedCount := n } = c.maxClaims.leInt n ∧
    getDoc codeId
        (copyCode codeId now net clipboardOk (claimTimes codeId now net clipboardOk n s)).db.codes =
      some { c with claimedCount := n + 1 } := by
  obtain ⟨h1, h2⟩ := claimTimes_from n codeId now net clipboardOk s u c huser hget hnet
  rw [hfresh, zero_add] at h2
  refine ⟨h2, ?_, ?_⟩
  · simp only [isFullyClaimed]
    split_ifs with h0
    · rw [h0]
    · rfl
  · exact (copyCode_step codeId now net clipboardOk _ u _ h1 h2 hnet).2.1

/-- C4 on `ABC123` with `maxClaims = 2`: two claims give 2 and the fully-claimed mark,
a third gives 3. -/
theorem claimTimes_counts_witness :
    aliceApp.currentUser = some alice ∧ getDoc "c1" aliceApp.db.codes = some abc123 ∧
    abc123.claimedCount = 0 ∧
    getDoc "c1" (claimTimes "c1" t0 allUp true 2 aliceApp).db.codes =
      some { abc123 with claimedCount := 2 } ∧
    isFullyClaimed { abc123 with claimedCount := 2 } = true ∧
    getDoc "c1" (copyCode "c1" t0 allUp true (claimTimes "c1" t0 allUp true 2 aliceApp)).db.codes =
      some { abc123 with claimedCount := 3 } := by
  have h := claimTimes_counts 2 "c1" t0 allUp true aliceApp alice abc123 (by decide) (by decide)
    (by decide) rfl
  exact ⟨by decide, by decide, by decide, h.1, by decide, h.2.2⟩

/-- C5 as stated fails: `bob` holds 4 points, the page still shows the 10 points of
the previous session because the read of his entry failed, the form is closed, and
his publish attempt goes through: his balance becomes -1 and a code is inserted. The
same happens when his 4 points are shown but the form was left displayed by the
previous session. -/
theorem publishAttempt_stale_display_counterexample :
    staleApp.currentUser = some bob ∧
    getDoc bob.uid staleApp.db.users =
      some { points := 4, createdAt := "2024-12-02T00:00:00.000Z" } ∧
    staleApp.userPoints = "10" ∧ staleApp.publishModal = false ∧
    getDoc bob.uid (publishAttempt asciiToUpperCase goodDraft t0 "k1" allUp staleApp).db.users =
      some { points := -1, createdAt := "2024-12-02T00:00:00.000Z" } ∧
    (publishAttempt asciiToUpperCase goodDraft t0 "k1" allUp staleApp).db.codes =
      demoDb.codes ++ [("k1",
        { code := "AB12CD", coin := "BTC", maxClaims := JsNumber.int 3,
          expiryDate := "2025-01-05", claimedCount := 0, publishedBy := "uid-bob",
          publishedAt := "2025-01-01T10:00:00.000Z" })] ∧
    openFormApp.currentUser = some bob ∧ openFormApp.userPoints = "4" ∧
    openFormApp.publishModal = true ∧
    getDoc bob.uid (publishAttempt asciiToUpperCase goodDraft t0 "k1" allUp openFormApp).db.users =
      some { points := -1, createdAt := "2024-12-02T00:00:00.000Z" } := by
  decide

/-- C5 (amended): for a signed-in user whose ledger balance is below 5 and whose
displayed balance is that balance, as `loadUserData` writes it, a publish attempt
made while the publish form is closed changes nothing, whatever the draft and
whatever the store would answer. -/
theorem publishAttempt_rejected_when_display_low (toUpperCase : String → String) (d : Draft)
    (now : Instant) (newId : String) (net : Nat → Bool) (s : App) (u : User) (ud : UserDoc)
    (huser : s.currentUser = some u) (hled : getDoc u.uid s.db.users = some ud)
    (hlow : ud.points < 5) (hsync : s.userPoints = numberToString ud.points)
    (hclosed : s.publishModal = false) :
    showPublishForm now s = s ∧ publishAttempt toUpperCase d now newId net s = s ∧
      getDoc u.uid (publishAttempt toUpperCase d now newId net s).db.users = some ud := by
  have hshow : showPublishForm now s = s := by
    simp [showPublishForm, huser, hsync, parseInt_numberToString, JsNumber.ltInt, hlow]
  have hatt : publishAttempt toUpperCase d now newId net s = s := by
    simp [publishAttempt, hshow, hclosed]
  exact ⟨hshow, hatt, by rw [hatt]; exact hled⟩

/-- C5 (amended) for `bob` with 4 points shown and held: the attempt changes
nothing. -/
theorem publishAttempt_rejected_when_display_low_witness :
    bobApp.currentUser = some bob ∧
    getDoc bob.uid bobApp.db.users =
      some { points := 4, createdAt := "2024-12-02T00:00:00.000Z" } ∧
    bobApp.userPoints = numberToString 4 ∧ bobApp.publishModal = false ∧
    publishAttempt asciiToUpperCase goodDraft t0 "k1" allUp bobApp = bobApp :=
  ⟨by decide, by decide, by decide, by decide,
    (publishAttempt_rejected_when_display_low asciiToUpperCase goodDraft t0 "k1" allUp bobApp bob
      { points := 4, createdAt := "2024-12-02T00:00:00.000Z" } (by decide) (by decide)
      (by decide) (by decide) (by decide)).2.1⟩

/-- C6: for a signed-in user with ledger balance `ud.points`, a publish whose debit
and insert both reach the store leaves that balance at `ud.points - 5`, leaves
every other ledger entry, every existing code and the updates as they were, and
appends one code record with `claimedCount = 0`, `publishedBy` the author and
`code` the trimmed, upper-cased input. -/
theorem publishCode_debits_and_inserts (toUpperCase : String → String) (d : Draft)
    (now : Instant) (newId : String) (net : Nat → Bool) (s : App) (u : User) (ud : UserDoc)
    (huser : s.currentUser = some u) (hled : getDoc u.uid s.db.users = some ud)
    (hdebit : net 0 = true) (hadd : net 1 = true) (hfresh : getDoc newId s.db.codes = none) :
    getDoc u.uid (publishCode toUpperCase d now newId net s).db.users =
      some { ud with points := ud.points - 5 } ∧
    (∀ uid2, uid2 ≠ u.uid →
      getDoc uid2 (publishCode toUpperCase d now newId net s).db.users = getDoc uid2 s.db.users) ∧
    (publishCode toUpperCase d now newId net s).db.codes =
      s.db.codes ++ [(newId,
        { code := toUpperCase (trim d.codeInput), coin := d.coinSelect,
          maxClaims := parseInt d.maxClaims, expiryDate := d.expiryDate, claimedCount := 0,
          publishedBy := u.uid, publishedAt := toISOString now })] ∧
    (publishCode toUpperCase d now newId net s).db.updates = s.db.updates := by
  rw [publishCode_db toUpperCase d now newId net s u ud huser hled hdebit hadd]
  refine ⟨?_, ?_, ?_, rfl⟩
  · simp only
    rw [getDoc_mapDoc_same, hled]
    rfl
  · intro uid2 hne
    exact getDoc_mapDoc_other _ _ _ _ hne
  · simp only [setDoc, hfresh]

/-- C6 for `alice` with 10 points: after the publish she holds 5 and the code
`AB12CD` is appended. -/
theorem publishCode_debits_and_inserts_witness :
    aliceApp.currentUser = some alice ∧
    getDoc alice.uid aliceApp.db.users =
      some { points := 10, createdAt := "2024-12-01T00:00:00.000Z" } ∧
    getDoc "k1" aliceApp.db.codes = none ∧
    getDoc alice.uid (publishCode asciiToUpperCase goodDraft t0 "k1" allUp aliceApp).db.users =
      some { points := 5, createdAt := "2024-12-01T00:00:00.000Z" } ∧
    (publishCode asciiToUpperCase goodDraft t0 "k1" allUp aliceApp).db.codes =
      aliceApp.db.codes ++ [("k1",
        { code := asciiToUpperCase (trim goodDraft.codeInput), coin := goodDraft.coinSelect,
          maxClaims := parseInt goodDraft.maxClaims, expiryDate := goodDraft.expiryDate,
          claimedCount := 0, publishedBy := alice.uid, publishedAt := toISOString t0 })] ∧
    asciiToUpperCase (trim goodDraft.codeInput) = "AB12CD" := by
  have h := publishCode_debits_and_inserts asciiToUpperCase goodDraft t0 "k1" allUp aliceApp alice
    { points := 10, createdAt := "2024-12-01T00:00:00.000Z" } (by decide) (by decide) rfl rfl
    (by decide)
  exact ⟨by decide, by decide, by decide, h.1, h.2.2.1, by decide⟩

/-- C7: `loadUserData` is idempotent. For a user with no ledger entry a second call
changes nothing after the first, which has created one entry, and only one, with
`points = 0`; for a user who has an entry the store is left as it is. -/
theorem loadUserData_idempotent (uid : String) (now1 now2 : Instant) (s : App) :
    (getDoc uid s.db.users = none →
      loadUserData uid now2 true true (loadUserData uid now1 true true s) =
        loadUserData uid now1 true true s ∧
      getDoc uid (loadUserData uid now1 true true s).db.users =
        some { points := 0, createdAt := toISOString now1 } ∧
      ((loadUserData uid now1 true true s).db.users.filter (fun e => decide (e.1 = uid))).length
        = 1) ∧
    (∀ ud, getDoc uid s.db.users = some ud →
      (loadUserData uid now1 true true s).db = s.db ∧
      loadUserData uid now2 true true (loadUserData uid now1 true true s) =
        loadUserData uid now1 true true s) := by
  constructor
  · intro hnone
    have h1 : loadUserData uid now1 true true s =
        { s with
          db := { s.db with
            users := s.db.users ++ [(uid, { points := 0, createdAt := toISOString now1 })] },
          userPoints := "0" } := by
      simp [loadUserData, hnone, setDoc]
    have hget := getDoc_append_new uid ({ points := 0, createdAt := toISOString now1 } : UserDoc)
      s.db.users hnone
    refine ⟨?_, ?_, ?_⟩
    · rw [h1]
      simp only [loadUserData, Bool.not_true, Bool.false_eq_true, if_false, hget, if_true]
      rfl
    · rw [h1]
      exact hget
    · rw [h1]
      simp only [List.filter_append]
      have : s.db.users.filter (fun e => decide (e.1 = uid)) = [] := by
        rw [List.filter_eq_nil_iff]
        intro e he
        simpa using (getDoc_eq_none_iff uid s.db.users).mp hnone e he
      rw [this]
      simp
  · intro ud hud
    have hdb := loadUserData_db_of_entry uid now1 true true s ud hud
    refine ⟨hdb, ?_⟩
    simp only [loadUserData, Bool.not_true, Bool.false_eq_true, if_false, hud]

/-- C7 on the demo store: a user unknown to the ledger gets one entry with 0 points
and a second load changes nothing; the entry of `alice` is left alone. -/
theorem loadUserData_idempotent_witness :
    getDoc "uid-carol" guest.db.users = none ∧
    loadUserData "uid-carol" t0 true true (loadUserData "uid-carol" t0 true true guest) =
      loadUserData "uid-carol" t0 true true guest ∧
    ((loadUserData "uid-carol" t0 true true guest).db.users.filter
      (fun e => decide (e.1 = "uid-carol"))).length = 1 ∧
    (loadUserData "uid-alice" t0 true true guest).db = guest.db := by
  have h := loadUserData_idempotent "uid-carol" t0 t0 guest
  have h2 := loadUserData_idempotent "uid-alice" t0 t0 guest
  exact ⟨by decide, (h.1 (by decide)).1, (h.1 (by decide)).2.2,
    (h2.2 { points := 10, createdAt := "2024-12-01T00:00:00.000Z" } (by decide)).1⟩

/-- C8 as stated fails: `alice` publishes a draft with empty texts and `maxClaims`
zero, and one with an empty `maxClaims`; both times 5 points are debited and a record
is inserted, with `maxClaims` 0 and `NaN`. -/
theorem publishCode_invalid_draft_counterexample :
    getDoc alice.uid (publishCode asciiToUpperCase zeroDraft t0 "k1" allUp aliceApp).db.users =
      some { points := 5, createdAt := "2024-12-01T00:00:00.000Z" } ∧
    getDoc "k1" (publishCode asciiToUpperCase zeroDraft t0 "k1" allUp aliceApp).db.codes =
      some { code := "", coin := "", maxClaims := JsNumber.int 0, expiryDate := "",
             claimedCount := 0, publishedBy := "uid-alice",
             publishedAt := "2025-01-01T10:00:00.000Z" } ∧
    getDoc alice.uid (publishCode asciiToUpperCase emptyDraft t0 "k1" allUp aliceApp).db.users =
      some { points := 5, createdAt := "2024-12-01T00:00:00.000Z" } ∧
    getDoc "k1" (publishCode asciiToUpperCase emptyDraft t0 "k1" allUp aliceApp).db.codes =
      some { code := "X1", coin := "BTC", maxClaims := JsNumber.nan, expiryDate := "2025-01-05",
             claimedCount := 0, publishedBy := "uid-alice",
             publishedAt := "2025-01-01T10:00:00.000Z" } := by
  decide

/-- C8 (amended): `publishCode` does not look at the draft before writing. For
every draft, a publish by a signed-in user with a ledger entry whose debit and
insert reach the store debits 5 and stores a record carrying the coin and expiry
texts verbatim and `parseInt` of the `maxClaims` text, which is `NaN` for an empty
or non-numeric text and may be 0 or negative. -/
theorem publishCode_stores_any_draft (toUpperCase : String → String) (d : Draft)
    (now : Instant) (newId : String) (net : Nat → Bool) (s : App) (u : User) (ud : UserDoc)
    (huser : s.currentUser = some u) (hled : getDoc u.uid s.db.users = some ud)
    (hdebit : net 0 = true) (hadd : net 1 = true) (hfresh : getDoc newId s.db.codes = none) :
    getDoc u.uid (publishCode toUpperCase d now newId net s).db.users =
      some (incrementPoints (-5) ud) ∧
    getDoc newId (publishCode toUpperCase d now newId net s).db.codes =
      some { code := toUpperCase (trim d.codeInput), coin := d.coinSelect,
             maxClaims := parseInt d.maxClaims, expiryDate := d.expiryDate, claimedCount := 0,
             publishedBy := u.uid, publishedAt := toISOString now } := by
  rw [publishCode_db toUpperCase d now newId net s u ud huser hled hdebit hadd]
  constructor
  · simp only
    rw [getDoc_mapDoc_same, hled]
    rfl
  · simp only [setDoc, hfresh]
    exact getDoc_append_new _ _ _ hfresh

/-- C8 (amended) for `alice` and the draft with `maxClaims` zero. -/
theorem publishCode_stores_any_draft_witness :
    aliceApp.currentUser = some alice ∧
    getDoc alice.uid aliceApp.db.users =
      some { points := 10, createdAt := "2024-12-01T00:00:00.000Z" } ∧
    getDoc "k1" aliceApp.db.codes = none ∧
    getDoc "k1" (publishCode asciiToUpperCase zeroDraft t0 "k1" allUp aliceApp).db.codes =
      some { code := asciiToUpperCase (trim zeroDraft.codeInput), coin := zeroDraft.coinSelect,
             maxClaims := parseInt zeroDraft.maxClaims, expiryDate := zeroDraft.expiryDate,
             claimedCount := 0, publishedBy := alice.uid, publishedAt := toISOString t0 } ∧
    parseInt zeroDraft.maxClaims = JsNumber.int 0 :=
  ⟨by decide, by decide, by decide,
    (publishCode_stores_any_draft asciiToUpperCase zeroDraft t0 "k1" allUp aliceApp alice
      { points := 10, createdAt := "2024-12-01T00:00:00.000Z" } (by decide) (by decide) rfl rfl
      (by decide)).2, by decide⟩

/-- C9 fails on the script: with `isAdmin = false` and nobody signed in,
`adminAddCode` inserts a code; with `isAdmin = false` and `alice` signed in,
`postUpdate` inserts an announcement. -/
theorem adminAddCode_postUpdate_not_gated :
    guest.isAdmin = false ∧ guest.currentUser = none ∧
    (adminAddCode asciiToUpperCase goodDraft t0 "k1" allUp guest).db.codes =
      guest.db.codes ++ [("k1",
        { code := "AB12CD", coin := "BTC", maxClaims := JsNumber.int 3,
          expiryDate := "2025-01-05", claimedCount := 0, publishedBy := "admin",
          publishedAt := "2025-01-01T10:00:00.000Z" })] ∧
    aliceApp.isAdmin = false ∧
    (postUpdate "hello" t0 "n1" allUp aliceApp).db.updates =
      [("n1", { text := "hello", postedBy := "uid-alice",
                postedAt := "2025-01-01T10:00:00.000Z" })] := by
  decide

/-- C10 fails on the script: after the allow-listed user signs in and signs out,
nobody is signed in and `isAdmin` is still true, the admin button is still shown,
`deleteCode` deletes and the hourly timer sweeps. -/
theorem isAdmin_survives_sign_out :
    signedOutOwner.currentUser = none ∧ signedOutOwner.isAdmin = true ∧
    signedOutOwner.adminBtn = true ∧
    (deleteCode "c1" true t0 allUp signedOutOwner).db.codes =
      [("c2", oldCode), ("c3", todayCode)] ∧
    (hourlyTick t0 allUp signedOutOwner).db.codes = [("c1", abc123)] := by
  decide

end RBRPC
